import Mathlib

/-!
Shallow embedding of the credential-pool manager (`AdvancedAPIKeyManager` in
`src/app.py`, lines 178-369), the retry/rotation loop (`Manus.think` in
`src/app/agent/manus.py`, lines 339-441) and the task entry point (`main` in
`src/app.py`, lines 760-783).

Conventions of the embedding:
- Python `time.time()` is replaced by an explicit `now : ℤ` argument threaded to
  every operation that reads the clock.
- Python dicts are association lists with unique keys (`dlookup`, `dinsert`,
  `derase`); `dinsert` replaces in place like dict assignment, `derase` models
  `del`.  The predicate `wfDict` (keys pairwise distinct) states exactly what a
  real dict guarantees.
- Python exceptions that the modelled code can actually raise are the values of
  `PyError`; code that cannot raise is a plain function.
-/

/-- Lookup in an association list, first entry wins (dict read). -/
def dlookup {α : Type} : List (String × α) → String → Option α
  | [], _ => none
  | (k, v) :: rest, key => if k = key then some v else dlookup rest key

/-- Dict assignment `d[k] = v`: replace the entry in place if present, else append. -/
def dinsert {α : Type} : List (String × α) → String → α → List (String × α)
  | [], key, v => [(key, v)]
  | (k, w) :: rest, key, v =>
      if k = key then (key, v) :: rest else (k, w) :: dinsert rest key v

/-- Dict deletion `del d[k]`: drop the first entry with the given key. -/
def derase {α : Type} : List (String × α) → String → List (String × α)
  | [], _ => []
  | (k, w) :: rest, key => if k = key then rest else (k, w) :: derase rest key

/-- The keys of an association list. -/
def dkeys {α : Type} (d : List (String × α)) : List String := d.map Prod.fst

/-- An association list represents a Python dict iff its keys are pairwise distinct. -/
def wfDict {α : Type} (d : List (String × α)) : Prop := (dkeys d).Nodup

instance {α : Type} (d : List (String × α)) : Decidable (wfDict d) := by
  unfold wfDict; infer_instance

/-- Character-for-character match of `pat` against the front of `s`. -/
def leadMatch : List Char → List Char → Bool
  | [], _ => true
  | _ :: _, [] => false
  | c :: cs, d :: ds => c == d && leadMatch cs ds

/-- Python substring test `pat in s` on the underlying character lists. -/
def substrHit (pat : List Char) : List Char → Bool
  | [] => leadMatch pat []
  | c :: cs => leadMatch pat (c :: cs) || substrHit pat cs

/-- `str.lower()` restricted to ASCII, which is all the classifier keywords use. -/
def lowerStr (s : String) : String :=
  String.mk (s.data.map Char.toLower)

/-- Python `keyword in error_str` for a `String` keyword. -/
def kwHit (errStr kw : String) : Bool := substrHit kw.data errStr.data

/-- Python `any(keyword in error_str for keyword in kws)`. -/
def anyKeyword (errStr : String) (kws : List String) : Bool :=
  kws.any (fun kw => kwHit errStr kw)

/-- One configured credential descriptor, after the `.get(...)` defaults of
`AdvancedAPIKeyManager.__init__` (src/app.py lines 187-196) have been applied. -/
structure KeyConfig where
  api_key : String
  name : String
  max_requests_per_minute : Nat
  max_requests_per_hour : Nat
  max_requests_per_day : Nat
  priority : Int
  enabled : Bool
  deriving Repr, DecidableEq

/-- The per-key entry of `usage_stats` (src/app.py lines 200-205). -/
structure UsageStats where
  requests_this_minute : List ℤ
  requests_this_hour : List ℤ
  requests_this_day : List ℤ
  total_requests : Nat
  deriving Repr, DecidableEq

def emptyStats : UsageStats :=
  { requests_this_minute := [], requests_this_hour := [], requests_this_day := [],
    total_requests := 0 }

/-- The mutable state of `AdvancedAPIKeyManager` (src/app.py lines 179-207).
`last_used` values are `Option ℤ` because `__init__` stores `None`. -/
structure APIKeyManager where
  api_keys : List KeyConfig
  usage_stats : List (String × UsageStats)
  disabled_keys : List (String × ℤ)
  failure_counts : List (String × Int)
  last_used : List (String × Option ℤ)
  deriving Repr, DecidableEq

/-- The empty manager state before `__init__` runs its loop
(src/app.py lines 180-184). -/
def emptyManager : APIKeyManager :=
  { api_keys := [], usage_stats := [], disabled_keys := [],
    failure_counts := [], last_used := [] }

/-- One iteration of the `__init__` loop (src/app.py lines 187-207): the
descriptor is appended to `api_keys` unconditionally and the per-key dicts get
an entry, a duplicate id overwriting the earlier dict entries. -/
def initStep (m : APIKeyManager) (cfg : KeyConfig) : APIKeyManager :=
  { api_keys := m.api_keys ++ [cfg],
    usage_stats := dinsert m.usage_stats cfg.api_key emptyStats,
    disabled_keys := m.disabled_keys,
    failure_counts := dinsert m.failure_counts cfg.api_key 0,
    last_used := dinsert m.last_used cfg.api_key none }

/-- `AdvancedAPIKeyManager.__init__` (src/app.py lines 179-207): no duplicate
check of any kind is performed. -/
def initManager (cfgs : List KeyConfig) : APIKeyManager :=
  cfgs.foldl initStep emptyManager

/-- The list-pruning step of `_clean_old_usage_data` (src/app.py lines 216-232). -/
def cleanStats (st : UsageStats) (now : ℤ) : UsageStats :=
  { st with
    requests_this_minute := st.requests_this_minute.filter (fun t => now - t < 60),
    requests_this_hour := st.requests_this_hour.filter (fun t => now - t < 3600),
    requests_this_day := st.requests_this_day.filter (fun t => now - t < 86400) }

/-- `_clean_old_usage_data` (src/app.py lines 211-232).  The source subscripts
`self.usage_stats[api_key]` unguarded; every caller passes a key of `api_keys`,
which construction always places in `usage_stats`, so the KeyError branch is
unreachable there and the missing-key case is modelled as a no-op. -/
def _clean_old_usage_data (m : APIKeyManager) (api_key : String) (now : ℤ) :
    APIKeyManager :=
  match dlookup m.usage_stats api_key with
  | some st => { m with usage_stats := dinsert m.usage_stats api_key (cleanStats st now) }
  | none => m

/-- The rate-limit half of `_is_key_available` (src/app.py lines 246-255):
prune, then refuse when any pruned count has reached its limit. -/
def availRateCheck (m : APIKeyManager) (cfg : KeyConfig) (now : ℤ) :
    Bool × APIKeyManager :=
  let m1 := _clean_old_usage_data m cfg.api_key now
  let st := (dlookup m1.usage_stats cfg.api_key).getD emptyStats
  if st.requests_this_minute.length ≥ cfg.max_requests_per_minute ∨
      st.requests_this_hour.length ≥ cfg.max_requests_per_hour ∨
      st.requests_this_day.length ≥ cfg.max_requests_per_day then
    (false, m1)
  else
    (true, m1)

/-- `_is_key_available` (src/app.py lines 234-255).  Note that the source never
consults `key_config['enabled']` here; the flag is checked by the caller
`get_available_api_key` instead. -/
def _is_key_available (m : APIKeyManager) (cfg : KeyConfig) (now : ℤ) :
    Bool × APIKeyManager :=
  match dlookup m.disabled_keys cfg.api_key with
  | some d =>
      if now < d then (false, m)
      else
        availRateCheck { m with disabled_keys := derase m.disabled_keys cfg.api_key }
          cfg now
  | none => availRateCheck m cfg now

/-- `_disable_key_for_rate_limit` (src/app.py lines 257-261). -/
def _disable_key_for_rate_limit (m : APIKeyManager) (api_key : String) (now : ℤ) :
    APIKeyManager :=
  { m with disabled_keys := dinsert m.disabled_keys api_key (now + 60) }

/-- The stats update of `record_successful_request` (src/app.py lines 315-318):
append the same timestamp to all three windows and bump the lifetime total. -/
def recordHit (st : UsageStats) (now : ℤ) : UsageStats :=
  { requests_this_minute := st.requests_this_minute ++ [now],
    requests_this_hour := st.requests_this_hour ++ [now],
    requests_this_day := st.requests_this_day ++ [now],
    total_requests := st.total_requests + 1 }

/-- `record_successful_request` (src/app.py lines 309-324): the stats update is
membership-guarded, `last_used` is assigned unconditionally, and the failure
count is reset only if present. -/
def record_successful_request (m : APIKeyManager) (api_key : String) (now : ℤ) :
    APIKeyManager :=
  let m1 :=
    match dlookup m.usage_stats api_key with
    | some st => { m with usage_stats := dinsert m.usage_stats api_key (recordHit st now) }
    | none => m
  let m2 := { m1 with last_used := dinsert m1.last_used api_key (some now) }
  match dlookup m2.failure_counts api_key with
  | some _ => { m2 with failure_counts := dinsert m2.failure_counts api_key 0 }
  | none => m2

/-- `record_rate_limit_error` (src/app.py lines 326-329); `key_name` is used
only for logging in the source. -/
def record_rate_limit_error (m : APIKeyManager) (api_key : String)
    (_key_name : String) (now : ℤ) : APIKeyManager :=
  _disable_key_for_rate_limit m api_key now

/-- `record_failure` (src/app.py lines 331-338): increments the failure count if
the id is known, otherwise silently creates an entry at 1; `key_name` and
`error_type` are used only for logging in the source. -/
def record_failure (m : APIKeyManager) (api_key : String) (_key_name : String)
    (_error_type : String) : APIKeyManager :=
  match dlookup m.failure_counts api_key with
  | some fc => { m with failure_counts := dinsert m.failure_counts api_key (fc + 1) }
  | none => { m with failure_counts := dinsert m.failure_counts api_key 1 }

/-- The Python exceptions the modelled code can raise. -/
inductive PyError where
  /-- an exception raised by the opaque unit of work, identified by its message -/
  | excMsg (msg : String)
  /-- `KeyError` from a dict subscript with a missing key -/
  | keyError (k : String)
  /-- `TypeError` from `float - None` in `_calculate_key_score` -/
  | typeErrorFloatMinusNone
  deriving Repr, DecidableEq

/-- `_calculate_key_score` (src/app.py lines 263-280).  `__init__` stores
`None` in `last_used` for every key, so the `api_key in self.last_used` test
succeeds for a never-used key and `current_time - None` raises `TypeError`. -/
def _calculate_key_score (m : APIKeyManager) (cfg : KeyConfig) (now : ℤ) :
    Except PyError ℚ := do
  let score0 : ℚ := (cfg.priority : ℚ)
  let score1 ←
    match dlookup m.last_used cfg.api_key with
    | some (some t) => pure (score0 + min (((now - t : ℤ) : ℚ) / 3600) 10)
    | some none => Except.error PyError.typeErrorFloatMinusNone
    | none => pure score0
  match dlookup m.failure_counts cfg.api_key with
  | some fc => pure (score1 - (fc : ℚ) * 2)
  | none => pure score1

/-- The per-item step of the availability comprehension in
`get_available_api_key` (src/app.py lines 284-288): `key_config['enabled']`
short-circuits, so `_is_key_available` (and its pruning side effects) only runs
for enabled keys. -/
def availPass : List KeyConfig → APIKeyManager → ℤ →
    List (String × KeyConfig) × APIKeyManager
  | [], m, _ => ([], m)
  | cfg :: rest, m, now =>
      if cfg.enabled then
        let p := _is_key_available m cfg now
        let t := availPass rest p.2 now
        (if p.1 then (cfg.api_key, cfg) :: t.1 else t.1, t.2)
      else
        availPass rest m now

/-- The scoring comprehension of `get_available_api_key` (lines 295 and 303),
left to right, propagating the first `TypeError` from `_calculate_key_score`. -/
def scoreKeys (m : APIKeyManager) (now : ℤ) :
    List (String × KeyConfig) → Except PyError (List (String × KeyConfig × ℚ))
  | [] => Except.ok []
  | (k, cfg) :: rest => do
      let s ← _calculate_key_score m cfg now
      let tail ← scoreKeys m now rest
      pure ((k, cfg, s) :: tail)

/-- Insertion step of a stable descending sort by score: an element is placed
before the first strictly smaller score, so equal scores keep their original
order, as Python's stable `list.sort(key=..., reverse=True)` does (line 296). -/
def insertScored (x : String × KeyConfig × ℚ) :
    List (String × KeyConfig × ℚ) → List (String × KeyConfig × ℚ)
  | [] => [x]
  | y :: ys => if x.2.2 ≥ y.2.2 then x :: y :: ys else y :: insertScored x ys

/-- Stable descending sort by score (line 296 / line 304). -/
def sortScored : List (String × KeyConfig × ℚ) → List (String × KeyConfig × ℚ)
  | [] => []
  | x :: xs => insertScored x (sortScored xs)

/-- `get_available_api_key` (src/app.py lines 282-307).  `random.choice` over
the top-3 slice is modelled by the oracle index `choice`, reduced modulo the
slice length.  Scoring may raise (see `_calculate_key_score`); the state
mutations of the availability pass have already happened when it does. -/
def get_available_api_key (m : APIKeyManager) (use_random : Bool) (now : ℤ)
    (choice : Nat) :
    Except PyError (Option (String × KeyConfig)) × APIKeyManager :=
  let p := availPass m.api_keys m now
  let available_keys := p.1
  let m1 := p.2
  if available_keys.isEmpty then (Except.ok none, m1)
  else
    match scoreKeys m1 now available_keys with
    | Except.error e => (Except.error e, m1)
    | Except.ok scored =>
        let sorted := sortScored scored
        if use_random ∧ 1 < available_keys.length then
          let top_keys := sorted.take (min 3 sorted.length)
          match top_keys.get? (choice % top_keys.length) with
          | some (k, cfg, _) => (Except.ok (some (k, cfg)), m1)
          | none => (Except.ok none, m1)
        else
          match sorted with
          | (k, cfg, _) :: _ => (Except.ok (some (k, cfg)), m1)
          | [] => (Except.ok none, m1)

/-- One snapshot of the dict literal built by `get_keys_status`
(src/app.py lines 352-365). -/
structure KeyStatus where
  name : String
  enabled : Bool
  priority : Int
  is_available : Bool
  requests_this_minute : Nat
  requests_this_hour : Nat
  requests_this_day : Nat
  total_requests : Nat
  failure_count : Int
  is_disabled : Bool
  disabled_until : ℤ
  last_used : Option ℤ
  deriving Repr, DecidableEq

/-- The body of the `get_keys_status` loop for one `key_config`
(src/app.py lines 345-367).  The local `stats` of the source aliases the dict
entry that `_clean_old_usage_data` mutates in place, so the count reads observe
the pruned lists; the dict values are evaluated in source order, which is why
`is_disabled` and `disabled_until` see the state after `_is_key_available` has
possibly cleared an expired `disabled_keys` entry. -/
def statusOne (m : APIKeyManager) (cfg : KeyConfig) (now : ℤ) :
    KeyStatus × APIKeyManager :=
  let api_key := cfg.api_key
  let m1 := _clean_old_usage_data m api_key now
  let q := _is_key_available m1 cfg now
  let avail := q.1
  let m2 := q.2
  let st := (dlookup m2.usage_stats api_key).getD emptyStats
  let status : KeyStatus :=
    { name := cfg.name, enabled := cfg.enabled, priority := cfg.priority,
      is_available := avail,
      requests_this_minute := st.requests_this_minute.length,
      requests_this_hour := st.requests_this_hour.length,
      requests_this_day := st.requests_this_day.length,
      total_requests := st.total_requests,
      failure_count := (dlookup m2.failure_counts api_key).getD 0,
      is_disabled := (dlookup m2.disabled_keys api_key).isSome,
      disabled_until := (dlookup m2.disabled_keys api_key).getD 0,
      last_used := (dlookup m2.last_used api_key).getD (some 0) }
  (status, m2)

/-- The loop of `get_keys_status` over `self.api_keys` in order. -/
def statusPass : List KeyConfig → APIKeyManager → ℤ → List KeyStatus × APIKeyManager
  | [], m, _ => ([], m)
  | cfg :: rest, m, now =>
      let p := statusOne m cfg now
      let t := statusPass rest p.2 now
      (p.1 :: t.1, t.2)

/-- `get_keys_status` (src/app.py lines 340-369). -/
def get_keys_status (m : APIKeyManager) (now : ℤ) :
    List KeyStatus × APIKeyManager :=
  statusPass m.api_keys m now

/-- Values stored in a status snapshot dict. -/
inductive StatusVal where
  | strV (s : String)
  | boolV (b : Bool)
  | intV (i : Int)
  | natV (n : Nat)
  | timeV (t : ℤ)
  | optTimeV (t : Option ℤ)
  deriving Repr, DecidableEq

/-- Dict subscript `k[field]` on a status snapshot: defined exactly for the
twelve field names of the dict literal at src/app.py lines 352-365; any other
name raises `KeyError` in the source. -/
def statusGetItem (st : KeyStatus) (field : String) : Option StatusVal :=
  if field = "name" then some (StatusVal.strV st.name)
  else if field = "enabled" then some (StatusVal.boolV st.enabled)
  else if field = "priority" then some (StatusVal.intV st.priority)
  else if field = "is_available" then some (StatusVal.boolV st.is_available)
  else if field = "requests_this_minute" then some (StatusVal.natV st.requests_this_minute)
  else if field = "requests_this_hour" then some (StatusVal.natV st.requests_this_hour)
  else if field = "requests_this_day" then some (StatusVal.natV st.requests_this_day)
  else if field = "total_requests" then some (StatusVal.natV st.total_requests)
  else if field = "failure_count" then some (StatusVal.intV st.failure_count)
  else if field = "is_disabled" then some (StatusVal.boolV st.is_disabled)
  else if field = "disabled_until" then some (StatusVal.timeV st.disabled_until)
  else if field = "last_used" then some (StatusVal.optTimeV st.last_used)
  else none

/-- Python truthiness of a status value. -/
def truthy : StatusVal → Bool
  | StatusVal.strV s => !s.isEmpty
  | StatusVal.boolV b => b
  | StatusVal.intV i => i ≠ 0
  | StatusVal.natV n => n ≠ 0
  | StatusVal.timeV q => q ≠ 0
  | StatusVal.optTimeV q => q.elim false (fun x => x ≠ 0)

/-- The comprehension `[k for k in rotation_stats if k[field]]`
(src/app/agent/manus.py line 433), raising `KeyError` at the first snapshot
lacking the field. -/
def filterByField (field : String) : List KeyStatus → Except PyError (List KeyStatus)
  | [] => Except.ok []
  | st :: rest =>
      match statusGetItem st field with
      | none => Except.error (PyError.keyError field)
      | some v => do
          let tail ← filterByField field rest
          pure (if truthy v then st :: tail else tail)

/-- The keyword list of the rate-limit branch (src/app/agent/manus.py line 388). -/
def rateKeywords : List String :=
  ["rate limit", "quota", "too many requests", "resource_exhausted"]

/-- The keyword list of the authentication branch (line 391). -/
def authKeywords : List String :=
  ["authentication", "invalid api key", "unauthorized"]

/-- The keyword list of the connection branch (line 394). -/
def connKeywords : List String :=
  ["timeout", "connection"]

/-- Which pool mutator the except-handler of `Manus.think` invoked. -/
inductive RecordedCall where
  | rateLimitError
  | failureCall (error_type : String)
  deriving Repr, DecidableEq

/-- The classify-and-record chain of `Manus.think`
(src/app/agent/manus.py lines 387-399): an ordered if/elif over keyword hits in
`error_str = str(e).lower()`, each branch invoking one pool mutator. -/
def classifyAndRecord (m : APIKeyManager) (error_str : String)
    (api_key key_name : String) (now : ℤ) : APIKeyManager × RecordedCall :=
  if anyKeyword error_str rateKeywords then
    (record_rate_limit_error m api_key key_name now, RecordedCall.rateLimitError)
  else if anyKeyword error_str authKeywords then
    (record_failure m api_key key_name "auth_error",
     RecordedCall.failureCall "auth_error")
  else if anyKeyword error_str connKeywords then
    (record_failure m api_key key_name "connection_error",
     RecordedCall.failureCall "connection_error")
  else
    (record_failure m api_key key_name "unknown_error",
     RecordedCall.failureCall "unknown_error")

/-- One unit of work (`await super().think()`): either a result or a raised
exception identified by its message. -/
inductive WorkRes where
  | ok (b : Bool)
  | err (msg : String)
  deriving Repr, DecidableEq

/-- The environment of one `think` run: the opaque work callback (indexed by
attempt number), the `random.choice` oracle, and the wall clock per attempt. -/
structure ThinkCtx where
  work : Nat → WorkRes
  choice : Nat → Nat
  timeAt : Nat → ℤ

/-- One invocation of the work callback: the api key of the credential in use
(`None` when no key config is attached) and the backoff slept just before it
(`asyncio.sleep(1)` on rotation, otherwise none). -/
structure CallEv where
  key : Option String
  backoff : Nat
  deriving Repr, DecidableEq

/-- How one `think` run ends. -/
inductive ThinkOutcome where
  | ok (b : Bool)
  | raised (e : PyError)
  deriving Repr, DecidableEq

/-- Observable result of a `think` run: the work invocations in order, the
outcome, and the final manager state. -/
structure ThinkRun where
  calls : List CallEv
  outcome : ThinkOutcome
  mgr : Option APIKeyManager
  deriving Repr, DecidableEq

/-- The `for attempt in range(max_retries)` loop of `Manus.think`
(src/app/agent/manus.py lines 362-441), transcribed branch for branch:
success records and returns; failure classifies and records (lines 387-399)
when a manager and a key config are attached; with attempts remaining the
handler re-selects (line 406) — an exception raised there propagates out —
and either rotates to a differing key with a 1-second sleep (lines 409-424)
or falls through; at the last attempt the handler evaluates
`[k for k in rotation_stats if k['available']]` (lines 431-433) before
re-raising.  The fuel argument counts the remaining loop iterations; the
fuel-exhausted base case is the `return False` at line 441. -/
def thinkGo (ctx : ThinkCtx) (maxRetries : Nat) :
    Nat → Nat → Option APIKeyManager → Option KeyConfig → Nat → ThinkRun
  | 0, _, mgrOpt, _, _ => ⟨[], ThinkOutcome.ok false, mgrOpt⟩
  | remaining + 1, attempt, mgrOpt, cur, pendingSleep =>
      let ev : CallEv := ⟨cur.map (fun c => c.api_key), pendingSleep⟩
      let now := ctx.timeAt attempt
      match ctx.work attempt with
      | WorkRes.ok b =>
          let mgr' :=
            match mgrOpt, cur with
            | some m, some c => some (record_successful_request m c.api_key now)
            | _, _ => mgrOpt
          ⟨[ev], ThinkOutcome.ok b, mgr'⟩
      | WorkRes.err msg =>
          let error_str := lowerStr msg
          match mgrOpt, cur with
          | some m, some c =>
              let m1 := (classifyAndRecord m error_str c.api_key c.name now).1
              if attempt < maxRetries - 1 then
                match get_available_api_key m1 true now (ctx.choice attempt) with
                | (Except.error pe, m2) => ⟨[ev], ThinkOutcome.raised pe, some m2⟩
                | (Except.ok (some (new_api_key, new_cfg)), m2) =>
                    if new_api_key ≠ c.api_key then
                      let rest := thinkGo ctx maxRetries remaining (attempt + 1)
                        (some m2) (some new_cfg) 1
                      ⟨ev :: rest.calls, rest.outcome, rest.mgr⟩
                    else
                      let rest := thinkGo ctx maxRetries remaining (attempt + 1)
                        (some m2) (some c) 0
                      ⟨ev :: rest.calls, rest.outcome, rest.mgr⟩
                | (Except.ok none, m2) =>
                    let rest := thinkGo ctx maxRetries remaining (attempt + 1)
                      (some m2) (some c) 0
                    ⟨ev :: rest.calls, rest.outcome, rest.mgr⟩
              else
                if attempt = maxRetries - 1 then
                  let s := get_keys_status m1 now
                  match filterByField "available" s.1 with
                  | Except.error pe => ⟨[ev], ThinkOutcome.raised pe, some s.2⟩
                  | Except.ok _ => ⟨[ev], ThinkOutcome.raised (PyError.excMsg msg), some s.2⟩
                else
                  let rest := thinkGo ctx maxRetries remaining (attempt + 1) (some m1) (some c) 0
                  ⟨ev :: rest.calls, rest.outcome, rest.mgr⟩
          | _, _ =>
              if attempt = maxRetries - 1 then
                match mgrOpt with
                | some m =>
                    let s := get_keys_status m now
                    match filterByField "available" s.1 with
                    | Except.error pe => ⟨[ev], ThinkOutcome.raised pe, some s.2⟩
                    | Except.ok _ =>
                        ⟨[ev], ThinkOutcome.raised (PyError.excMsg msg), some s.2⟩
                | none => ⟨[ev], ThinkOutcome.raised (PyError.excMsg msg), none⟩
              else
                let rest := thinkGo ctx maxRetries remaining (attempt + 1) mgrOpt cur 0
                ⟨ev :: rest.calls, rest.outcome, rest.mgr⟩

/-- `Manus.think` (lines 339-441): `max_retries` is 3 when an api key manager
is attached and 1 otherwise (line 360), and the loop starts at attempt 0 with
no pending backoff. -/
def runThink (ctx : ThinkCtx) (mgrOpt : Option APIKeyManager)
    (cur : Option KeyConfig) : ThinkRun :=
  let maxRetries := if mgrOpt.isSome then 3 else 1
  thinkGo ctx maxRetries maxRetries 0 mgrOpt cur 0

/-- How the task entry point `main` (src/app.py lines 760-783) returns. -/
inductive MainOutcome where
  /-- line 765: the distinguished try-again-later reply, a normal return -/
  | noKeysMessage
  /-- line 779: the result of the unit of work -/
  | result (b : Bool)
  /-- lines 781-783: any exception is caught and rendered as an error reply -/
  | errorMessage (e : PyError)
  deriving Repr, DecidableEq

/-- `main` (src/app.py lines 760-783): select a key; with none available return
the distinguished no-keys reply without running the agent; otherwise record the
request and run the unit of work.  The second component reports whether the
work callback was invoked. -/
def mainRun (m : APIKeyManager) (now : ℤ) (choice : Nat)
    (work : String → WorkRes) : MainOutcome × Bool × APIKeyManager :=
  match get_available_api_key m true now choice with
  | (Except.error pe, m1) => (MainOutcome.errorMessage pe, false, m1)
  | (Except.ok none, m1) => (MainOutcome.noKeysMessage, false, m1)
  | (Except.ok (some (api_key, _cfg)), m1) =>
      let m2 := record_successful_request m1 api_key now
      match work api_key with
      | WorkRes.ok b => (MainOutcome.result b, true, m2)
      | WorkRes.err msg => (MainOutcome.errorMessage (PyError.excMsg msg), true, m2)

/-- The availability verdict `get_available_api_key` applies to each configured
key (src/app.py line 287): the `enabled` flag and the runtime check. -/
def keyVerdict (m : APIKeyManager) (cfg : KeyConfig) (now : ℤ) : Bool :=
  cfg.enabled && (_is_key_available m cfg now).1

/-- The spec's availability condition (spec.md section 4.2) without the
`enabled` conjunct, written directly from the spec's words as arithmetic on the
record's own entries: not disabled (absent cooldown, or cooldown at or before
`now`) and all three pruned counts strictly below their limits. -/
def specAvailRuntime (m : APIKeyManager) (cfg : KeyConfig) (now : ℤ) : Bool :=
  (match dlookup m.disabled_keys cfg.api_key with
   | some d => decide (d ≤ now)
   | none => true)
  && (let st := cleanStats ((dlookup m.usage_stats cfg.api_key).getD emptyStats) now
      decide (st.requests_this_minute.length < cfg.max_requests_per_minute)
      && decide (st.requests_this_hour.length < cfg.max_requests_per_hour)
      && decide (st.requests_this_day.length < cfg.max_requests_per_day))

/-- The spec's error taxonomy for work failures (spec.md section 4.3 step 4). -/
inductive ErrCategory where
  | rate_limited
  | auth_error
  | connection_error
  | unknown_error
  deriving Repr, DecidableEq

/-- Modelled from the spec: ordered first-match classification of an error
description over the four keyword sets (spec.md section 4.3 step 4). -/
def specClassify (error_str : String) : ErrCategory :=
  if anyKeyword error_str rateKeywords then ErrCategory.rate_limited
  else if anyKeyword error_str authKeywords then ErrCategory.auth_error
  else if anyKeyword error_str connKeywords then ErrCategory.connection_error
  else ErrCategory.unknown_error

/-- Modelled from the spec: record `rate_limited` via the rate-limit mutator
and every other category via the failure mutator (spec.md section 4.3 step 5). -/
def specAction : ErrCategory → RecordedCall
  | ErrCategory.rate_limited => RecordedCall.rateLimitError
  | ErrCategory.auth_error => RecordedCall.failureCall "auth_error"
  | ErrCategory.connection_error => RecordedCall.failureCall "connection_error"
  | ErrCategory.unknown_error => RecordedCall.failureCall "unknown_error"

/-- Relation between two consecutive work invocations of one `think` run:
a rotated (different-key) retry slept 1 second, a same-key retry slept none. -/
def consecOk (e1 e2 : CallEv) : Prop :=
  (e2.key ≠ e1.key ∧ e2.backoff = 1) ∨ (e2.key = e1.key ∧ e2.backoff = 0)

/-- `m'` differs from `m` at most by lazy pruning at time `now`: the usage
lists may have been filtered by their horizons and expired cooldown entries may
have been cleared; everything else is identical. -/
def PruneOnly (m m' : APIKeyManager) (now : ℤ) : Prop :=
  m'.api_keys = m.api_keys ∧
  m'.failure_counts = m.failure_counts ∧
  m'.last_used = m.last_used ∧
  (∀ k, dlookup m'.usage_stats k = dlookup m.usage_stats k ∨
    dlookup m'.usage_stats k = (dlookup m.usage_stats k).map (fun st => cleanStats st now)) ∧
  (∀ k, dlookup m'.disabled_keys k = dlookup m.disabled_keys k ∨
    (dlookup m'.disabled_keys k = none ∧
      ∃ d, dlookup m.disabled_keys k = some d ∧ d ≤ now))

/-- Usage windows producible by the pool's own operations: empty at
construction (src/app.py lines 200-205), extended by the `record_hit` step of
`record_successful_request` (lines 315-318), pruned by `_clean_old_usage_data`
(lines 216-232), in any order and at any times. -/
inductive StatsReach : UsageStats → Prop where
  | init : StatsReach emptyStats
  | record (now : ℤ) {st : UsageStats} : StatsReach st → StatsReach (recordHit st now)
  | clean (now : ℤ) {st : UsageStats} : StatsReach st → StatsReach (cleanStats st now)

/- Concrete instances used by counterexamples and witnesses. -/

/-- A priority-5 enabled key. -/
def keyA : KeyConfig :=
  { api_key := "KA", name := "A", max_requests_per_minute := 5,
    max_requests_per_hour := 100, max_requests_per_day := 100,
    priority := 5, enabled := true }

/-- A priority-1 enabled key. -/
def keyB : KeyConfig :=
  { api_key := "KB", name := "B", max_requests_per_minute := 5,
    max_requests_per_hour := 100, max_requests_per_day := 100,
    priority := 1, enabled := true }

/-- A second descriptor carrying the same id as `keyA`. -/
def keyA2 : KeyConfig :=
  { api_key := "KA", name := "A2", max_requests_per_minute := 7,
    max_requests_per_hour := 70, max_requests_per_day := 70,
    priority := 2, enabled := true }

/-- A key whose operator flag is off. -/
def keyOff : KeyConfig :=
  { api_key := "KO", name := "Off", max_requests_per_minute := 5,
    max_requests_per_hour := 100, max_requests_per_day := 100,
    priority := 1, enabled := false }

/-- A one-key pool in which the key has one recorded success at time 0, so that
scoring does not trip over the never-used `None` (see `_calculate_key_score`). -/
def mgrUsedA : APIKeyManager :=
  record_successful_request (initManager [keyA]) "KA" 0

/-- A work callback that always raises an authentication error, with a fixed
choice oracle and a clock reading 100, 101, ... over the attempts. -/
def ctxAuthFail : ThinkCtx :=
  { work := fun _ => WorkRes.err "Authentication bad",
    choice := fun _ => 0,
    timeAt := fun n => 100 + (n : ℤ) }

/-- A one-key pool exhausted for the current minute: five successes at time 0. -/
def mgrQuotaA : APIKeyManager :=
  (List.range 5).foldl (fun m _ => record_successful_request m "KA" 0) (initManager [keyA])

/-- A two-key pool with one success each at time 0 (both keys used once). -/
def mgrUsedAB : APIKeyManager :=
  record_successful_request (record_successful_request (initManager [keyA, keyB]) "KA" 0) "KB" 0

/-- Work fails with a rate-limit error on the first attempt and succeeds after,
clock reading 10, 11, ... -/
def ctxRateThenOk : ThinkCtx :=
  { work := fun n => if n = 0 then WorkRes.err "Rate limit exceeded" else WorkRes.ok true,
    choice := fun _ => 0,
    timeAt := fun n => 10 + (n : ℤ) }


/-! Helper lemmas about the dict model. -/

theorem wfDict_cons {α : Type} {a : String} {w : α} {tl : List (String × α)} :
    wfDict ((a, w) :: tl) ↔ a ∉ dkeys tl ∧ wfDict tl := by
  simp [wfDict, dkeys, List.nodup_cons]

theorem dlookup_dinsert_self {α : Type} (d : List (String × α)) (k : String) (v : α) :
    dlookup (dinsert d k v) k = some v := by
  induction d with
  | nil => simp [dinsert, dlookup]
  | cons hd tl ih =>
      obtain ⟨a, w⟩ := hd
      by_cases h : a = k
      · simp [dinsert, h, dlookup]
      · simp [dinsert, h, dlookup, ih]

theorem dlookup_dinsert_ne {α : Type} (d : List (String × α)) {k k' : String} (v : α)
    (h : k' ≠ k) : dlookup (dinsert d k v) k' = dlookup d k' := by
  have hkk : k ≠ k' := fun hh => h hh.symm
  induction d with
  | nil => simp [dinsert, dlookup, hkk]
  | cons hd tl ih =>
      obtain ⟨a, w⟩ := hd
      by_cases ha : a = k
      · subst ha
        simp [dinsert, dlookup, hkk]
      · by_cases ha' : a = k'
        · simp [dinsert, dlookup, ha, ha', h]
        · simp [dinsert, dlookup, ha, ha', ih]

theorem dinsert_lookup_eq {α : Type} {d : List (String × α)} {k : String} {v : α}
    (h : dlookup d k = some v) : dinsert d k v = d := by
  induction d with
  | nil => simp [dlookup] at h
  | cons hd tl ih =>
      obtain ⟨a, w⟩ := hd
      by_cases ha : a = k
      · subst ha
        simp [dlookup] at h
        simp [dinsert, h]
      · simp [dlookup, ha] at h
        simp [dinsert, ha, ih h]

theorem dlookup_derase_ne {α : Type} (d : List (String × α)) {k k' : String}
    (h : k' ≠ k) : dlookup (derase d k) k' = dlookup d k' := by
  induction d with
  | nil => simp [derase]
  | cons hd tl ih =>
      obtain ⟨a, w⟩ := hd
      by_cases ha : a = k
      · subst ha
        have hkk : ¬ a = k' := fun hh => h hh.symm
        simp [derase, dlookup, hkk]
      · by_cases ha' : a = k'
        · simp [derase, dlookup, ha, ha', h]
        · simp [derase, dlookup, ha, ha', ih]

theorem mem_dkeys_iff_lookup {α : Type} (d : List (String × α)) (k : String) :
    k ∈ dkeys d ↔ (dlookup d k).isSome := by
  induction d with
  | nil => simp [dkeys, dlookup]
  | cons hd tl ih =>
      obtain ⟨a, w⟩ := hd
      have hk : dkeys ((a, w) :: tl) = a :: dkeys tl := rfl
      rw [hk, List.mem_cons]
      by_cases ha : a = k
      · subst ha
        simp [dlookup]
      · have hd' : dlookup ((a, w) :: tl) k = dlookup tl k := by
          simp [dlookup, ha]
        rw [hd']
        constructor
        · intro hmem
          rcases hmem with h1 | h1
          · exact absurd h1.symm ha
          · exact ih.mp h1
        · intro hs
          exact Or.inr (ih.mpr hs)

theorem dlookup_derase_self {α : Type} {d : List (String × α)} (k : String)
    (h : wfDict d) : dlookup (derase d k) k = none := by
  induction d with
  | nil => simp [derase, dlookup]
  | cons hd tl ih =>
      obtain ⟨a, w⟩ := hd
      have h1 : a ∉ dkeys tl := (wfDict_cons.mp h).1
      have h2 : wfDict tl := (wfDict_cons.mp h).2
      by_cases ha : a = k
      · subst ha
        have hgoal : dlookup (derase ((a, w) :: tl) a) a = dlookup tl a := by
          simp [derase]
        rw [hgoal]
        have hns : ¬ (dlookup tl a).isSome :=
          fun hs => h1 ((mem_dkeys_iff_lookup tl a).mpr hs)
        rcases hls : dlookup tl a with _ | v
        · rfl
        · exact absurd (by rw [hls]; rfl) hns
      · simp [derase, dlookup, ha, ih h2]

theorem derase_sublist {α : Type} (d : List (String × α)) (k : String) :
    (derase d k).Sublist d := by
  induction d with
  | nil => simp [derase]
  | cons hd tl ih =>
      obtain ⟨a, w⟩ := hd
      by_cases ha : a = k
      · simp [derase, ha]
      · simpa [derase, ha] using List.Sublist.cons₂ (a, w) ih

theorem wfDict_derase {α : Type} {d : List (String × α)} (k : String)
    (h : wfDict d) : wfDict (derase d k) := by
  exact List.Nodup.sublist (List.Sublist.map Prod.fst (derase_sublist d k)) h

theorem dkeys_dinsert {α : Type} (d : List (String × α)) (k : String) (v : α) :
    dkeys (dinsert d k v) = if (dlookup d k).isSome then dkeys d else dkeys d ++ [k] := by
  induction d with
  | nil => simp [dinsert, dkeys, dlookup]
  | cons hd tl ih =>
      obtain ⟨a, w⟩ := hd
      by_cases ha : a = k
      · subst ha
        simp [dinsert, dkeys, dlookup]
      · have h1 : dkeys ((a, w) :: dinsert tl k v) = a :: dkeys (dinsert tl k v) := rfl
        have h2 : dkeys ((a, w) :: tl) = a :: dkeys tl := rfl
        rcases hls : dlookup tl k with _ | u
        · simp [dinsert, ha, h1, h2, ih, dlookup, hls]
        · simp [dinsert, ha, h1, h2, ih, dlookup, hls]

theorem wfDict_dinsert {α : Type} {d : List (String × α)} (k : String) (v : α)
    (h : wfDict d) : wfDict (dinsert d k v) := by
  unfold wfDict
  rw [dkeys_dinsert]
  rcases hls : dlookup d k with _ | u
  · simp only [hls, Option.isSome_none, Bool.false_eq_true, if_false]
    have hk : k ∉ dkeys d := fun hm => by
      have := (mem_dkeys_iff_lookup d k).mp hm
      rw [hls] at this
      exact absurd this (by simp)
    simp [List.nodup_append, hk]
    exact h
  · simpa using h

theorem dinsert_absent {α : Type} {d : List (String × α)} {k : String} (v : α)
    (h : dlookup d k = none) : dinsert d k v = d ++ [(k, v)] := by
  induction d with
  | nil => simp [dinsert]
  | cons hd tl ih =>
      obtain ⟨a, w⟩ := hd
      by_cases ha : a = k
      · simp [dlookup, ha] at h
      · simp [dlookup, ha] at h
        simp [dinsert, ha, ih h]

theorem cleanStats_idem (st : UsageStats) (now : ℤ) :
    cleanStats (cleanStats st now) now = cleanStats st now := by
  simp [cleanStats, List.filter_filter]

/-! Structural lemmas about the pool operations. -/

theorem clean_api_keys (m : APIKeyManager) (k : String) (now : ℤ) :
    (_clean_old_usage_data m k now).api_keys = m.api_keys := by
  unfold _clean_old_usage_data
  split <;> rfl

theorem clean_disabled (m : APIKeyManager) (k : String) (now : ℤ) :
    (_clean_old_usage_data m k now).disabled_keys = m.disabled_keys := by
  unfold _clean_old_usage_data
  split <;> rfl

theorem clean_fc (m : APIKeyManager) (k : String) (now : ℤ) :
    (_clean_old_usage_data m k now).failure_counts = m.failure_counts := by
  unfold _clean_old_usage_data
  split <;> rfl

theorem clean_lu (m : APIKeyManager) (k : String) (now : ℤ) :
    (_clean_old_usage_data m k now).last_used = m.last_used := by
  unfold _clean_old_usage_data
  split <;> rfl

theorem dlookup_clean_usage (m : APIKeyManager) (k : String) (now : ℤ) (j : String) :
    dlookup (_clean_old_usage_data m k now).usage_stats j
      = if j = k then (dlookup m.usage_stats j).map (fun st => cleanStats st now)
        else dlookup m.usage_stats j := by
  unfold _clean_old_usage_data
  rcases hs : dlookup m.usage_stats k with _ | st
  · by_cases hj : j = k
    · subst hj
      simp [hs]
    · simp [hj]
  · by_cases hj : j = k
    · subst hj
      simp [hs, dlookup_dinsert_self]
    · simp [hj, dlookup_dinsert_ne _ _ hj]


theorem cleanStats_empty (now : ℤ) : cleanStats emptyStats now = emptyStats := rfl

theorem map_clean_getD (o : Option UsageStats) (now : ℤ) :
    (o.map (fun st => cleanStats st now)).getD emptyStats
      = cleanStats (o.getD emptyStats) now := by
  cases o <;> simp [cleanStats_empty]

theorem threshold_bool (a b c d e f : Nat) :
    (if a ≥ b ∨ c ≥ d ∨ e ≥ f then false else true)
      = (decide (a < b) && decide (c < d) && decide (e < f)) := by
  have h1 : (if a ≥ b ∨ c ≥ d ∨ e ≥ f then false else true)
      = decide (¬(a ≥ b ∨ c ≥ d ∨ e ≥ f)) := by
    by_cases h : a ≥ b ∨ c ≥ d ∨ e ≥ f <;> simp [h]
  rw [h1, show (decide (a < b) && decide (c < d) && decide (e < f))
        = decide ((a < b ∧ c < d) ∧ e < f) by simp [Bool.decide_and],
      decide_eq_decide]
  omega

theorem availRateCheck_state (m : APIKeyManager) (cfg : KeyConfig) (now : ℤ) :
    (availRateCheck m cfg now).2 = _clean_old_usage_data m cfg.api_key now := by
  unfold availRateCheck
  dsimp only
  split <;> rfl

theorem availRateCheck_bool (m : APIKeyManager) (cfg : KeyConfig) (now : ℤ) :
    (availRateCheck m cfg now).1
      = (let st := cleanStats ((dlookup m.usage_stats cfg.api_key).getD emptyStats) now
         decide (st.requests_this_minute.length < cfg.max_requests_per_minute)
           && decide (st.requests_this_hour.length < cfg.max_requests_per_hour)
           && decide (st.requests_this_day.length < cfg.max_requests_per_day)) := by
  unfold availRateCheck
  dsimp only
  rw [dlookup_clean_usage, if_pos rfl, map_clean_getD, apply_ite Prod.fst]
  dsimp only
  exact threshold_bool _ _ _ _ _ _

theorem iska_state (m : APIKeyManager) (cfg : KeyConfig) (now : ℤ) :
    (_is_key_available m cfg now).2
      = (match dlookup m.disabled_keys cfg.api_key with
         | some d =>
             if now < d then m
             else _clean_old_usage_data
               { m with disabled_keys := derase m.disabled_keys cfg.api_key }
               cfg.api_key now
         | none => _clean_old_usage_data m cfg.api_key now) := by
  unfold _is_key_available
  rcases hd : dlookup m.disabled_keys cfg.api_key with _ | d
  · exact availRateCheck_state m cfg now
  · by_cases hlt : now < d
    · simp [hlt]
    · simp [hlt, availRateCheck_state]

theorem iska_bool_eq_spec (m : APIKeyManager) (cfg : KeyConfig) (now : ℤ) :
    (_is_key_available m cfg now).1 = specAvailRuntime m cfg now := by
  unfold _is_key_available specAvailRuntime
  rcases hd : dlookup m.disabled_keys cfg.api_key with _ | d
  · dsimp only
    rw [availRateCheck_bool]
    simp
  · dsimp only
    by_cases hlt : now < d
    · have hdec : decide (d ≤ now) = false := by
        simp only [decide_eq_false_iff_not]
        omega
      simp [hlt, hdec]
    · have hle : decide (d ≤ now) = true := by
        simp only [decide_eq_true_eq]
        omega
      rw [if_neg hlt, availRateCheck_bool]
      simp [hle]

/-! Claim C1. -/

/-- Claim C1 (code bug): with an api key manager holding at least one key, a run
in which every attempt fails does not re-raise the last classified error — the
status log line evaluates `[k for k in rotation_stats if k['available']]`
(src/app/agent/manus.py line 433), but the snapshots of `get_keys_status` carry
the field `is_available`, not `available`, so a `KeyError` replaces the
classified error.  Without a manager (`max_retries = 1`) the loop does re-raise
the work error unchanged, as the claim states. -/
theorem C1_exhaustion_raises_keyerror_not_last_error :
    (runThink ctxAuthFail (some mgrUsedA) (some keyA)).outcome
        = ThinkOutcome.raised (PyError.keyError "available")
      ∧ (runThink ctxAuthFail none none).outcome
        = ThinkOutcome.raised (PyError.excMsg "Authentication bad")
      ∧ PyError.keyError "available" ≠ PyError.excMsg "Authentication bad" := by
  refine ⟨rfl, rfl, ?_⟩
  intro h
  exact PyError.noConfusion h

/-! Claim C2. -/

/-- Claim C2 (code bug): a never-used credential does not receive the maximal
idle bonus of 10 — scoring it raises `TypeError`, because `__init__` seeds
`last_used[key] = None` (src/app.py line 207) and `_calculate_key_score` then
computes `current_time - None` (lines 272-274); consequently Scenario B (two
freshly available credentials with priorities 5 and 1, deterministic mode)
crashes in `get_available_api_key` instead of returning the priority-5
credential.  The third conjunct shows the claimed formula does hold for a
credential with a real `last_used` timestamp. -/
theorem C2_fresh_key_score_raises_typeerror :
    _calculate_key_score (initManager [keyA, keyB]) keyA 1000
        = Except.error PyError.typeErrorFloatMinusNone
      ∧ (get_available_api_key (initManager [keyA, keyB]) false 1000 0).1
        = Except.error PyError.typeErrorFloatMinusNone
      ∧ _calculate_key_score mgrUsedA keyA 1000
        = Except.ok ((keyA.priority : ℚ) + min (((1000 - 0 : ℤ) : ℚ) / 3600) 10
            - ((0 : ℤ) : ℚ) * 2) :=
  ⟨rfl, rfl, rfl⟩

/-! Claim C4. -/

/-- Claim C4 counterexample: for a freshly constructed pool whose single key has
`enabled = false`, `_is_key_available` returns `true` while `enabled` is false,
so the claimed "available iff enabled and ..." equivalence fails: the source
checks the `enabled` flag in `get_available_api_key` (src/app.py line 287), not
in `_is_key_available`. -/
theorem C4_counterexample_enabled_not_checked :
    (_is_key_available (initManager [keyOff]) keyOff 0).1 = true
      ∧ keyOff.enabled = false :=
  ⟨rfl, rfl⟩

/-- Claim C4 (amended): `_is_key_available(record, now)` returns true iff the
cooldown is absent or at or before `now` — in which case the entry is cleared
as a side effect — and each of the three pruned usage counts is strictly below
its configured limit.  The `enabled` conjunct of the original claim is not part
of this function; the caller `get_available_api_key` checks it separately. -/
theorem C4_amended_is_key_available (m : APIKeyManager) (cfg : KeyConfig) (now : ℤ)
    (hwf : wfDict m.disabled_keys) :
    (_is_key_available m cfg now).1 = specAvailRuntime m cfg now
      ∧ dlookup (_is_key_available m cfg now).2.disabled_keys cfg.api_key
        = (match dlookup m.disabled_keys cfg.api_key with
           | some d => if now < d then some d else none
           | none => none) := by
  refine ⟨iska_bool_eq_spec m cfg now, ?_⟩
  rw [iska_state]
  rcases hd : dlookup m.disabled_keys cfg.api_key with _ | d
  · rw [clean_disabled]
    exact hd
  · by_cases hlt : now < d
    · simp [hlt, hd]
    · simp only [hlt, if_false]
      rw [clean_disabled]
      exact dlookup_derase_self cfg.api_key hwf

/-- Witness for `C4_amended_is_key_available`: a pool whose key carries an
expired cooldown (disabled until 60, observed at 100). -/
theorem C4_amended_is_key_available_witness :
    (_is_key_available (_disable_key_for_rate_limit (initManager [keyA]) "KA" 0)
        keyA 100).1
      = specAvailRuntime (_disable_key_for_rate_limit (initManager [keyA]) "KA" 0)
          keyA 100
    ∧ dlookup (_is_key_available (_disable_key_for_rate_limit (initManager [keyA]) "KA" 0)
          keyA 100).2.disabled_keys keyA.api_key
      = (match dlookup (_disable_key_for_rate_limit (initManager [keyA]) "KA" 0).disabled_keys
            keyA.api_key with
         | some d => if (100 : ℤ) < d then some d else none
         | none => none) :=
  C4_amended_is_key_available
    (_disable_key_for_rate_limit (initManager [keyA]) "KA" 0) keyA 100 (by decide)

/-! Claim C5. -/

/-- Claim C5: the except-handler of `Manus.think` classifies a failure by
first-match over the ordered keyword sets (rate-limit, then authentication,
then timeout/connection, else unknown) and invokes `record_rate_limit_error`
exactly for the rate-limited category and `record_failure` with the matching
kind for every other category. -/
theorem C5_classification_first_match (m : APIKeyManager)
    (error_str api_key key_name : String) (now : ℤ) :
    (classifyAndRecord m error_str api_key key_name now).2
        = specAction (specClassify error_str)
      ∧ (classifyAndRecord m error_str api_key key_name now).1
        = (match specClassify error_str with
           | ErrCategory.rate_limited => record_rate_limit_error m api_key key_name now
           | ErrCategory.auth_error => record_failure m api_key key_name "auth_error"
           | ErrCategory.connection_error => record_failure m api_key key_name "connection_error"
           | ErrCategory.unknown_error => record_failure m api_key key_name "unknown_error")
      ∧ (specClassify error_str = ErrCategory.rate_limited
          ↔ anyKeyword error_str rateKeywords = true)
      ∧ (specClassify error_str = ErrCategory.auth_error
          ↔ anyKeyword error_str rateKeywords = false
            ∧ anyKeyword error_str authKeywords = true)
      ∧ (specClassify error_str = ErrCategory.connection_error
          ↔ anyKeyword error_str rateKeywords = false
            ∧ anyKeyword error_str authKeywords = false
            ∧ anyKeyword error_str connKeywords = true)
      ∧ (specClassify error_str = ErrCategory.unknown_error
          ↔ anyKeyword error_str rateKeywords = false
            ∧ anyKeyword error_str authKeywords = false
            ∧ anyKeyword error_str connKeywords = false) := by
  unfold classifyAndRecord specClassify
  rcases h1 : anyKeyword error_str rateKeywords <;>
    rcases h2 : anyKeyword error_str authKeywords <;>
      rcases h3 : anyKeyword error_str connKeywords <;>
        simp [specAction]

/-! Claim C7. -/

theorem wfDict_empty {α : Type} : wfDict ([] : List (String × α)) := by
  simp [wfDict, dkeys]

theorem isSome_dlookup_dinsert {α : Type} (d : List (String × α)) (kk k : String)
    (v : α) :
    (dlookup (dinsert d kk v) k).isSome
      ↔ ((dlookup d k).isSome ∨ k = kk) := by
  by_cases h : k = kk
  · subst h
    simp [dlookup_dinsert_self]
  · simp [dlookup_dinsert_ne d v h, h]

theorem foldl_initStep_props (cfgs : List KeyConfig) :
    ∀ m0 : APIKeyManager,
      (cfgs.foldl initStep m0).api_keys = m0.api_keys ++ cfgs
      ∧ (wfDict m0.usage_stats → wfDict (cfgs.foldl initStep m0).usage_stats)
      ∧ (wfDict m0.failure_counts → wfDict (cfgs.foldl initStep m0).failure_counts)
      ∧ (wfDict m0.last_used → wfDict (cfgs.foldl initStep m0).last_used)
      ∧ (∀ k, (dlookup (cfgs.foldl initStep m0).usage_stats k).isSome
          ↔ ((dlookup m0.usage_stats k).isSome ∨ k ∈ cfgs.map KeyConfig.api_key)) := by
  induction cfgs with
  | nil => intro m0; simp
  | cons c rest ih =>
      intro m0
      obtain ⟨ha, hu, hf, hl, hs⟩ := ih (initStep m0 c)
      refine ⟨?_, ?_, ?_, ?_, ?_⟩
      · rw [List.foldl_cons, ha]
        simp [initStep]
      · intro hw
        rw [List.foldl_cons]
        exact hu (wfDict_dinsert _ _ hw)
      · intro hw
        rw [List.foldl_cons]
        exact hf (wfDict_dinsert _ _ hw)
      · intro hw
        rw [List.foldl_cons]
        exact hl (wfDict_dinsert _ _ hw)
      · intro k
        rw [List.foldl_cons, hs k]
        have : (dlookup (initStep m0 c).usage_stats k).isSome
            ↔ ((dlookup m0.usage_stats k).isSome ∨ k = c.api_key) :=
          isSome_dlookup_dinsert m0.usage_stats c.api_key k emptyStats
        rw [this]
        simp [or_assoc]

/-- Claim C7 counterexample: constructing a pool from two descriptors with the
same id succeeds (no rejection exists in `__init__`) and leaves both
descriptors in `api_keys`, so there are two records with the id "KA". -/
theorem C7_counterexample_duplicate_ids_accepted :
    (initManager [keyA, keyA2]).api_keys.map KeyConfig.api_key = ["KA", "KA"]
      ∧ (initManager [keyA, keyA2]).api_keys.length = 2 :=
  ⟨rfl, rfl⟩

/-- Claim C7 (amended): pool construction performs no duplicate check — the
`api_keys` list retains every descriptor, duplicates included — while the
per-id runtime dicts (`usage_stats`, `failure_counts`, `last_used`) hold
exactly one entry per distinct id, an id being present in them iff it occurs
among the configured descriptors. -/
theorem C7_amended_construction (cfgs : List KeyConfig) :
    (initManager cfgs).api_keys = cfgs
      ∧ wfDict (initManager cfgs).usage_stats
      ∧ wfDict (initManager cfgs).failure_counts
      ∧ wfDict (initManager cfgs).last_used
      ∧ (∀ k, (dlookup (initManager cfgs).usage_stats k).isSome
          ↔ k ∈ cfgs.map KeyConfig.api_key) := by
  obtain ⟨ha, hu, hf, hl, hs⟩ := foldl_initStep_props cfgs emptyManager
  refine ⟨by simpa [emptyManager] using ha,
    hu wfDict_empty, hf wfDict_empty, hl wfDict_empty, ?_⟩
  intro k
  rw [initManager, hs k]
  simp [emptyManager, dlookup]

/-! Claim C8. -/

/-- Claim C8 counterexample: invoking `record_failure` with an id not in the
pool does not fail fast — it returns normally and silently creates a failure
count entry for the unknown id (src/app.py lines 333-336). -/
theorem C8_counterexample_unknown_id_accepted :
    record_failure (initManager []) "nope" "n" "auth_error"
      = { api_keys := [], usage_stats := [], disabled_keys := [],
          failure_counts := [("nope", 1)], last_used := [] } :=
  rfl

/-- Claim C8 (amended): none of the three mutators fails on an unknown id;
each silently accepts it: `record_failure` creates a failure-count entry at 1,
`record_successful_request` skips the stats update but still sets `last_used`,
and `record_rate_limit_error` installs a cooldown entry for the unknown id. -/
theorem C8_amended_mutators_silent (m : APIKeyManager)
    (api_key key_name error_type : String) (now : ℤ)
    (h1 : dlookup m.usage_stats api_key = none)
    (h2 : dlookup m.failure_counts api_key = none) :
    record_failure m api_key key_name error_type
        = { m with failure_counts := m.failure_counts ++ [(api_key, 1)] }
      ∧ record_successful_request m api_key now
        = { m with last_used := dinsert m.last_used api_key (some now) }
      ∧ record_rate_limit_error m api_key key_name now
        = { m with disabled_keys := dinsert m.disabled_keys api_key (now + 60) } := by
  refine ⟨?_, ?_, rfl⟩
  · unfold record_failure
    rw [h2, dinsert_absent 1 h2]
  · unfold record_successful_request
    rw [h1]
    dsimp only
    rw [h2]

/-- Witness for `C8_amended_mutators_silent` on the empty pool and the unknown
id "nope". -/
theorem C8_amended_mutators_silent_witness :
    record_failure (initManager []) "nope" "n" "auth_error"
        = { initManager [] with
            failure_counts := (initManager []).failure_counts ++ [("nope", 1)] }
      ∧ record_successful_request (initManager []) "nope" 5
        = { initManager [] with
            last_used := dinsert (initManager []).last_used "nope" (some 5) }
      ∧ record_rate_limit_error (initManager []) "nope" "n" 5
        = { initManager [] with
            disabled_keys := dinsert (initManager []).disabled_keys "nope" (5 + 60) } :=
  C8_amended_mutators_silent (initManager []) "nope" "n" "auth_error" 5 rfl rfl

/-! Claim C6: selection-pair consistency, then the rotation/backoff chain. -/

theorem availPass_pairs (cfgs : List KeyConfig) :
    ∀ (m : APIKeyManager) (now : ℤ) (p : String × KeyConfig),
      p ∈ (availPass cfgs m now).1 → p.2.api_key = p.1 := by
  induction cfgs with
  | nil => intro m now p hp; simp [availPass] at hp
  | cons c rest ih =>
      intro m now p hp
      unfold availPass at hp
      by_cases hc : c.enabled
      · simp only [hc, if_true] at hp
        rcases hb : (_is_key_available m c now).1 with _ | _
        · rw [hb] at hp
          simp at hp
          exact ih _ now p hp
        · rw [hb] at hp
          simp at hp
          rcases hp with h | h
          · subst h
            rfl
          · exact ih _ now p h
      · simp only [hc, if_false] at hp
        exact ih _ now p hp

theorem scoreKeys_pairs (m : APIKeyManager) (now : ℤ) :
    ∀ (l : List (String × KeyConfig)) (res : List (String × KeyConfig × ℚ)),
      scoreKeys m now l = Except.ok res →
      (∀ p ∈ l, p.2.api_key = p.1) →
      ∀ x ∈ res, x.2.1.api_key = x.1 := by
  intro l
  induction l with
  | nil =>
      intro res hres hl x hx
      simp [scoreKeys] at hres
      subst hres
      simp at hx
  | cons p rest ih =>
      intro res hres hl x hx
      obtain ⟨k, cfg⟩ := p
      unfold scoreKeys at hres
      rcases hsc : _calculate_key_score m cfg now with pe | s
      · rw [hsc] at hres
        simp [Bind.bind, Except.bind] at hres
      · rw [hsc] at hres
        rcases htl : scoreKeys m now rest with pe | tl
        · rw [htl] at hres
          simp [Bind.bind, Except.bind, Functor.map, Except.map] at hres
        · rw [htl] at hres
          simp [Bind.bind, Except.bind, Functor.map, Except.map, pure, Except.pure] at hres
          subst hres
          rcases List.mem_cons.mp hx with h | h
          · subst h
            exact hl (k, cfg) (by simp)
          · exact ih tl htl (fun q hq => hl q (by simp [hq])) x h

theorem mem_insertScored (x y : String × KeyConfig × ℚ)
    (l : List (String × KeyConfig × ℚ)) (h : x ∈ insertScored y l) :
    x = y ∨ x ∈ l := by
  induction l with
  | nil => simpa [insertScored] using h
  | cons z zs ih =>
      unfold insertScored at h
      by_cases hc : y.2.2 ≥ z.2.2
      · simp only [hc, if_true] at h
        rcases List.mem_cons.mp h with h' | h'
        · exact Or.inl h'
        · exact Or.inr h'
      · simp only [hc, if_false] at h
        rcases List.mem_cons.mp h with h' | h'
        · exact Or.inr (by simp [h'])
        · rcases ih h' with h'' | h''
          · exact Or.inl h''
          · exact Or.inr (by simp [h''])

theorem mem_sortScored (x : String × KeyConfig × ℚ)
    (l : List (String × KeyConfig × ℚ)) (h : x ∈ sortScored l) : x ∈ l := by
  induction l with
  | nil => simp [sortScored] at h
  | cons z zs ih =>
      unfold sortScored at h
      rcases mem_insertScored x z (sortScored zs) h with h' | h'
      · simp [h']
      · simp [ih h']

theorem get_available_pair_consistent (m : APIKeyManager) (r : Bool) (now : ℤ)
    (c : Nat) (k : String) (cfg : KeyConfig)
    (h : (get_available_api_key m r now c).1 = Except.ok (some (k, cfg))) :
    cfg.api_key = k := by
  unfold get_available_api_key at h
  dsimp only at h
  by_cases he : (availPass m.api_keys m now).1.isEmpty
  · simp [he] at h
  · simp only [he, if_false, Bool.false_eq_true] at h
    rcases hsk : scoreKeys (availPass m.api_keys m now).2 now (availPass m.api_keys m now).1
      with pe | scored
    · rw [hsk] at h
      simp at h
    · rw [hsk] at h
      dsimp only at h
      have hpairs : ∀ x ∈ scored, x.2.1.api_key = x.1 :=
        scoreKeys_pairs _ now _ scored hsk
          (fun p hp => availPass_pairs m.api_keys m now p hp)
      by_cases hrand : r = true ∧ 1 < (availPass m.api_keys m now).1.length
      · rw [if_pos hrand] at h
        generalize hg : (List.take (min 3 (sortScored scored).length) (sortScored scored)).get?
            (c % (List.take (min 3 (sortScored scored).length) (sortScored scored)).length)
          = og at h
        rcases og with _ | x
        · simp at h
        · obtain ⟨k1, cfg1, s1⟩ := x
          simp at h
          have hx : (k1, cfg1, s1) ∈ sortScored scored :=
            List.take_subset _ _ (List.get?_mem hg)
          have hp := hpairs (k1, cfg1, s1) (mem_sortScored _ scored hx)
          obtain ⟨hk, hcfg⟩ := h
          subst hk
          subst hcfg
          exact hp
      · rw [if_neg hrand] at h
        generalize hs : sortScored scored = sl at h
        rcases sl with _ | ⟨x, xs⟩
        · simp at h
        · obtain ⟨k1, cfg1, s1⟩ := x
          simp at h
          have hx : (k1, cfg1, s1) ∈ sortScored scored := by
            rw [hs]
            simp
          have hp := hpairs (k1, cfg1, s1) (mem_sortScored _ scored hx)
          obtain ⟨hk, hcfg⟩ := h
          subst hk
          subst hcfg
          exact hp

/-- One unfolding of the loop body: an iteration either ends the run (its trace
is the single current call) or recurses, and a recursive continuation either
keeps the current credential with no backoff or switches to a credential with a
different id after a 1-second backoff. -/
theorem thinkGo_step (ctx : ThinkCtx) (maxRetries n attempt : Nat)
    (mgrOpt : Option APIKeyManager) (cur : Option KeyConfig) (b : Nat) :
    (∃ o mm, thinkGo ctx maxRetries (n + 1) attempt mgrOpt cur b
        = ⟨[⟨cur.map (fun c => c.api_key), b⟩], o, mm⟩)
    ∨ (∃ mgr' cur' b',
        thinkGo ctx maxRetries (n + 1) attempt mgrOpt cur b
          = ⟨⟨cur.map (fun c => c.api_key), b⟩ ::
              (thinkGo ctx maxRetries n (attempt + 1) mgr' cur' b').calls,
             (thinkGo ctx maxRetries n (attempt + 1) mgr' cur' b').outcome,
             (thinkGo ctx maxRetries n (attempt + 1) mgr' cur' b').mgr⟩
          ∧ ((cur' = cur ∧ b' = 0)
             ∨ (∃ ncfg, cur' = some ncfg ∧ b' = 1
                  ∧ some ncfg.api_key ≠ cur.map (fun c => c.api_key)))) := by
  rcases hw : ctx.work attempt with bres | msg
  · left
    simp only [thinkGo, hw]
    exact ⟨_, _, rfl⟩
  · rcases mgrOpt with _ | m
    · -- no manager: the catchall branch
      by_cases hl : attempt = maxRetries - 1
      · left
        simp only [thinkGo, hw]
        rw [if_pos hl]
        exact ⟨_, _, rfl⟩
      · right
        refine ⟨none, cur, 0, ?_, Or.inl ⟨rfl, rfl⟩⟩
        simp only [thinkGo, hw]
        rw [if_neg hl]
    · rcases cur with _ | c
      · by_cases hl : attempt = maxRetries - 1
        · left
          simp only [thinkGo, hw]
          rw [if_pos hl]
          rcases hf : filterByField "available" (get_keys_status m (ctx.timeAt attempt)).1
            with pe | okl
          · exact ⟨_, _, rfl⟩
          · exact ⟨_, _, rfl⟩
        · right
          refine ⟨some m, none, 0, ?_, Or.inl ⟨rfl, rfl⟩⟩
          simp only [thinkGo, hw]
          rw [if_neg hl]
      · by_cases hr : attempt < maxRetries - 1
        · rcases hsel : get_available_api_key
              (classifyAndRecord m (lowerStr msg) c.api_key c.name (ctx.timeAt attempt)).1
              true (ctx.timeAt attempt) (ctx.choice attempt)
            with ⟨res, m2⟩
          rcases res with pe | osel
          · left
            simp only [thinkGo, hw]
            rw [if_pos hr, hsel]
            exact ⟨_, _, rfl⟩
          · rcases osel with _ | ⟨nk, ncfg⟩
            · right
              refine ⟨some m2, some c, 0, ?_, Or.inl ⟨rfl, rfl⟩⟩
              simp only [thinkGo, hw]
              rw [if_pos hr, hsel]
            · by_cases hne : nk ≠ c.api_key
              · right
                have hcons : ncfg.api_key = nk :=
                  get_available_pair_consistent _ true _ _ nk ncfg
                    (by rw [hsel])
                refine ⟨some m2, some ncfg, 1, ?_,
                  Or.inr ⟨ncfg, rfl, rfl, by
                    intro hcon
                    rw [hcons] at hcon
                    exact hne (Option.some.inj hcon)⟩⟩
                simp only [thinkGo, hw]
                rw [if_pos hr, hsel]
                dsimp only
                rw [if_pos hne]
              · right
                refine ⟨some m2, some c, 0, ?_, Or.inl ⟨rfl, rfl⟩⟩
                simp only [thinkGo, hw]
                rw [if_pos hr, hsel]
                dsimp only
                rw [if_neg hne]
        · by_cases hl : attempt = maxRetries - 1
          · left
            simp only [thinkGo, hw]
            rw [if_neg hr, if_pos hl]
            rcases hf : filterByField "available"
                (get_keys_status
                  (classifyAndRecord m (lowerStr msg) c.api_key c.name (ctx.timeAt attempt)).1
                  (ctx.timeAt attempt)).1
              with pe | okl
            · exact ⟨_, _, rfl⟩
            · exact ⟨_, _, rfl⟩
          · right
            refine ⟨some (classifyAndRecord m (lowerStr msg) c.api_key c.name
                (ctx.timeAt attempt)).1, some c, 0, ?_, Or.inl ⟨rfl, rfl⟩⟩
            simp only [thinkGo, hw]
            rw [if_neg hr, if_neg hl]

/-- Trace invariant of the loop: the first call carries the pending backoff and
the current credential, and consecutive calls are related by `consecOk`. -/
theorem thinkGo_chain (ctx : ThinkCtx) (maxRetries : Nat) :
    ∀ (fuel attempt : Nat) (mgrOpt : Option APIKeyManager) (cur : Option KeyConfig)
      (b : Nat),
      (∀ e, (thinkGo ctx maxRetries fuel attempt mgrOpt cur b).calls.head? = some e →
          e.key = cur.map (fun c => c.api_key) ∧ e.backoff = b)
      ∧ List.Chain' consecOk (thinkGo ctx maxRetries fuel attempt mgrOpt cur b).calls := by
  intro fuel
  induction fuel with
  | zero =>
      intro attempt mgrOpt cur b
      constructor
      · intro e he
        simp [thinkGo] at he
      · simp [thinkGo]
  | succ n ih =>
      intro attempt mgrOpt cur b
      rcases thinkGo_step ctx maxRetries n attempt mgrOpt cur b
        with ⟨o, mm, heq⟩ | ⟨mgr', cur', b', heq, hcase⟩
      · rw [heq]
        constructor
        · intro e he
          simp at he
          subst he
          exact ⟨rfl, rfl⟩
        · simp
      · rw [heq]
        obtain ⟨hhead, hchain⟩ := ih (attempt + 1) mgr' cur' b'
        constructor
        · intro e he
          simp at he
          subst he
          exact ⟨rfl, rfl⟩
        · rw [List.chain'_cons']
          refine ⟨?_, hchain⟩
          intro e2 he2
          rw [Option.mem_def] at he2
          obtain ⟨hk, hb⟩ := hhead e2 he2
          rcases hcase with ⟨hcur, hb0⟩ | ⟨ncfg, hcur, hb1, hne⟩
          · right
            constructor
            · rw [hk, hcur]
            · rw [hb, hb0]
          · left
            constructor
            · rw [hk, hcur]
              exact hne
            · rw [hb, hb1]

/-- Claim C6 counterexample: a one-key pool (the key has a prior success) and
work that keeps failing with an authentication error: rotation finds no
different credential (`get_available_api_key` returns the same key), yet the
loop re-executes the work callback with the same failing credential on attempts
2 and 3 — the trace shows three invocations all with key "KA". -/
theorem C6_counterexample_same_key_reexecuted :
    (runThink ctxAuthFail (some mgrUsedA) (some keyA)).calls
      = [⟨some "KA", 0⟩, ⟨some "KA", 0⟩, ⟨some "KA", 0⟩] :=
  rfl

/-- Claim C6 (amended): in every run, the first work invocation happens with no
backoff, and each re-execution either follows a rotation to a credential whose
id differs from the previous one after a fixed 1-second backoff, or — when
selection yields no credential or the same one — happens immediately with the
same credential and no backoff. -/
theorem C6_amended_rotation_backoff (ctx : ThinkCtx) (mgrOpt : Option APIKeyManager)
    (cur : Option KeyConfig) :
    List.Chain' consecOk (runThink ctx mgrOpt cur).calls
      ∧ ((runThink ctx mgrOpt cur).calls.head?.elim True
          (fun e => e.backoff = 0)) := by
  have hrw : runThink ctx mgrOpt cur
      = thinkGo ctx (if mgrOpt.isSome then 3 else 1) (if mgrOpt.isSome then 3 else 1)
          0 mgrOpt cur 0 := rfl
  rw [hrw]
  obtain ⟨hhead, hchain⟩ := thinkGo_chain ctx (if mgrOpt.isSome then 3 else 1)
    (if mgrOpt.isSome then 3 else 1) 0 mgrOpt cur 0
  refine ⟨hchain, ?_⟩
  rcases hh : (thinkGo ctx (if mgrOpt.isSome then 3 else 1) (if mgrOpt.isSome then 3 else 1)
      0 mgrOpt cur 0).calls.head? with _ | e
  · exact trivial
  · exact (hhead e hh).2

/-- Witness for `C6_amended_rotation_backoff`: the Scenario-D run (rate-limit
failure on the first key, then success on the rotated second key). -/
theorem C6_amended_rotation_backoff_witness :
    List.Chain' consecOk (runThink ctxRateThenOk (some mgrUsedAB) (some keyA)).calls
      ∧ ((runThink ctxRateThenOk (some mgrUsedAB) (some keyA)).calls.head?.elim True
          (fun e => e.backoff = 0)) :=
  C6_amended_rotation_backoff ctxRateThenOk (some mgrUsedAB) (some keyA)

/-! Claim C3: pruning-only state evolution and the empty-selection path. -/

theorem pruneOnly_refl (m : APIKeyManager) (now : ℤ) : PruneOnly m m now := by
  refine ⟨rfl, rfl, rfl, fun k => Or.inl rfl, fun k => Or.inl rfl⟩

theorem pruneOnly_trans {m m' m'' : APIKeyManager} {now : ℤ}
    (h1 : PruneOnly m m' now) (h2 : PruneOnly m' m'' now) : PruneOnly m m'' now := by
  obtain ⟨a1, f1, l1, u1, d1⟩ := h1
  obtain ⟨a2, f2, l2, u2, d2⟩ := h2
  refine ⟨a2.trans a1, f2.trans f1, l2.trans l1, ?_, ?_⟩
  · intro k
    rcases u2 k with h | h
    · rw [h]
      exact u1 k
    · rcases u1 k with h' | h'
      · rw [h, h']
        exact Or.inr rfl
      · rw [h, h']
        right
        rcases hs : dlookup m.usage_stats k with _ | st
        · simp
        · simp [cleanStats_idem]
  · intro k
    rcases d2 k with h | h
    · rw [h]
      exact d1 k
    · obtain ⟨hn, d, hd, hdle⟩ := h
      rcases d1 k with h' | h'
      · rw [h'] at hd
        exact Or.inr ⟨hn, d, hd, hdle⟩
      · obtain ⟨hn', d', hd', hdle'⟩ := h'
        rw [hn'] at hd
        simp at hd

theorem pruneOnly_iska (m : APIKeyManager) (cfg : KeyConfig) (now : ℤ)
    (hwf : wfDict m.disabled_keys) :
    PruneOnly m (_is_key_available m cfg now).2 now := by
  rw [iska_state]
  rcases hd : dlookup m.disabled_keys cfg.api_key with _ | d
  · refine ⟨clean_api_keys m _ now, clean_fc m _ now, clean_lu m _ now, ?_, ?_⟩
    · intro k
      rw [dlookup_clean_usage]
      by_cases hk : k = cfg.api_key
      · rw [if_pos hk]
        exact Or.inr rfl
      · rw [if_neg hk]
        exact Or.inl rfl
    · intro k
      rw [clean_disabled]
      exact Or.inl rfl
  · dsimp only
    by_cases hlt : now < d
    · rw [if_pos hlt]
      exact pruneOnly_refl m now
    · rw [if_neg hlt]
      refine ⟨clean_api_keys _ _ now, clean_fc _ _ now, clean_lu _ _ now, ?_, ?_⟩
      · intro k
        rw [dlookup_clean_usage]
        by_cases hk : k = cfg.api_key
        · rw [if_pos hk]
          exact Or.inr rfl
        · rw [if_neg hk]
          exact Or.inl rfl
      · intro k
        rw [clean_disabled]
        by_cases hk : k = cfg.api_key
        · subst hk
          right
          refine ⟨dlookup_derase_self cfg.api_key hwf, d, hd, by omega⟩
        · rw [dlookup_derase_ne _ hk]
          exact Or.inl rfl

theorem wf_disabled_iska (m : APIKeyManager) (cfg : KeyConfig) (now : ℤ)
    (hwf : wfDict m.disabled_keys) :
    wfDict (_is_key_available m cfg now).2.disabled_keys := by
  rw [iska_state]
  rcases hd : dlookup m.disabled_keys cfg.api_key with _ | d
  · rw [clean_disabled]
    exact hwf
  · dsimp only
    by_cases hlt : now < d
    · rw [if_pos hlt]
      exact hwf
    · rw [if_neg hlt, clean_disabled]
      exact wfDict_derase cfg.api_key hwf

theorem specAvail_pruneOnly (m m' : APIKeyManager) (cfg : KeyConfig) (now : ℤ)
    (h : PruneOnly m m' now) :
    specAvailRuntime m' cfg now = specAvailRuntime m cfg now := by
  obtain ⟨_, _, _, hu, hd⟩ := h
  unfold specAvailRuntime
  have husage : cleanStats ((dlookup m'.usage_stats cfg.api_key).getD emptyStats) now
      = cleanStats ((dlookup m.usage_stats cfg.api_key).getD emptyStats) now := by
    rcases hu cfg.api_key with h' | h'
    · rw [h']
    · rw [h', map_clean_getD, cleanStats_idem]
  rw [husage]
  rcases hd cfg.api_key with h' | h'
  · rw [h']
  · obtain ⟨hn, d, hdd, hdle⟩ := h'
    rw [hn, hdd]
    have hdec : decide (d ≤ now) = true := by
      simp only [decide_eq_true_eq]
      exact hdle
    dsimp only
    rw [hdec]

theorem availPass_nil_of_unavailable (now : ℤ) :
    ∀ (cfgs : List KeyConfig) (m m0 : APIKeyManager),
      wfDict m0.disabled_keys → PruneOnly m m0 now →
      (∀ cfg ∈ cfgs, keyVerdict m cfg now = false) →
      (availPass cfgs m0 now).1 = []
        ∧ PruneOnly m (availPass cfgs m0 now).2 now
        ∧ wfDict (availPass cfgs m0 now).2.disabled_keys := by
  intro cfgs
  induction cfgs with
  | nil =>
      intro m m0 hwf hpo hall
      exact ⟨rfl, hpo, hwf⟩
  | cons c rest ih =>
      intro m m0 hwf hpo hall
      have hc : keyVerdict m c now = false := hall c (by simp)
      unfold availPass
      by_cases hen : c.enabled
      · have hball : (_is_key_available m0 c now).1 = false := by
          rw [iska_bool_eq_spec, specAvail_pruneOnly m m0 c now hpo]
          unfold keyVerdict at hc
          rw [iska_bool_eq_spec] at hc
          rcases Bool.and_eq_false_iff.mp hc with h | h
          · rw [hen] at h
            exact Bool.noConfusion h
          · exact h
        have hstep : PruneOnly m (_is_key_available m0 c now).2 now :=
          pruneOnly_trans hpo (pruneOnly_iska m0 c now hwf)
        have hwf' : wfDict (_is_key_available m0 c now).2.disabled_keys :=
          wf_disabled_iska m0 c now hwf
        obtain ⟨hnil, hpo', hwf''⟩ := ih m (_is_key_available m0 c now).2 hwf' hstep
          (fun cfg hcfg => hall cfg (by simp [hcfg]))
        simp only [hen, if_true, hball, Bool.false_eq_true, if_false]
        exact ⟨hnil, hpo', hwf''⟩
      · simp only [hen, Bool.false_eq_true, if_false]
        exact ih m m0 hwf hpo (fun cfg hcfg => hall cfg (by simp [hcfg]))

/-- Claim C3: when every configured credential is unavailable at selection time
(disabled flag off, under cooldown, or at quota), `get_available_api_key`
returns the distinguished empty result, and the task entry point `main` returns
its no-keys reply — a normal return, not an exception — without ever invoking
the unit of work. -/
theorem C3_no_credential_no_work (m : APIKeyManager) (now : ℤ) (choice : Nat)
    (work : String → WorkRes)
    (hwf : wfDict m.disabled_keys)
    (hall : ∀ cfg ∈ m.api_keys, keyVerdict m cfg now = false) :
    (get_available_api_key m true now choice).1 = Except.ok none
      ∧ (mainRun m now choice work).1 = MainOutcome.noKeysMessage
      ∧ (mainRun m now choice work).2.1 = false := by
  obtain ⟨hnil, _, _⟩ :=
    availPass_nil_of_unavailable now m.api_keys m m hwf (pruneOnly_refl m now) hall
  have hsel : get_available_api_key m true now choice
      = (Except.ok none, (availPass m.api_keys m now).2) := by
    unfold get_available_api_key
    dsimp only
    rw [hnil]
    rfl
  refine ⟨by rw [hsel], ?_, ?_⟩
  · unfold mainRun
    rw [hsel]
  · unfold mainRun
    rw [hsel]

/-- Witness for `C3_no_credential_no_work`: a one-key pool at its per-minute
quota (five recorded successes at time 0, observed at time 0). -/
theorem C3_no_credential_no_work_witness :
    (get_available_api_key mgrQuotaA true 0 0).1 = Except.ok none
      ∧ (mainRun mgrQuotaA 0 0 (fun _ => WorkRes.ok true)).1 = MainOutcome.noKeysMessage
      ∧ (mainRun mgrQuotaA 0 0 (fun _ => WorkRes.ok true)).2.1 = false :=
  C3_no_credential_no_work mgrQuotaA 0 0 (fun _ => WorkRes.ok true)
    (by decide) (by decide)

/-! Claim C10. -/

/-- Claim C10: for every usage window produced by the pool's own operations
(construction, the record-hit step, lazy pruning), the minute-window multiset
is contained in the hour window and the hour window in the day window, so the
three lengths are montonically ordered; recording appends one timestamp to all
three lists and pruning keeps supersets for longer horizons. -/
theorem C10_window_containment (st : UsageStats) (h : StatsReach st) :
    ((st.requests_this_minute : Multiset ℤ) ≤ (st.requests_this_hour : Multiset ℤ))
      ∧ ((st.requests_this_hour : Multiset ℤ) ≤ (st.requests_this_day : Multiset ℤ))
      ∧ st.requests_this_minute.length ≤ st.requests_this_hour.length
      ∧ st.requests_this_hour.length ≤ st.requests_this_day.length := by
  have main : ((st.requests_this_minute : Multiset ℤ) ≤ (st.requests_this_hour : Multiset ℤ))
      ∧ ((st.requests_this_hour : Multiset ℤ) ≤ (st.requests_this_day : Multiset ℤ)) := by
    induction h with
    | init => exact ⟨le_refl _, le_refl _⟩
    | record now h ih =>
        obtain ⟨h1, h2⟩ := ih
        constructor
        · show ((_ ++ [now] : List ℤ) : Multiset ℤ) ≤ ((_ ++ [now] : List ℤ) : Multiset ℤ)
          rw [← Multiset.coe_add, ← Multiset.coe_add]
          exact add_le_add_right h1 _
        · show ((_ ++ [now] : List ℤ) : Multiset ℤ) ≤ ((_ ++ [now] : List ℤ) : Multiset ℤ)
          rw [← Multiset.coe_add, ← Multiset.coe_add]
          exact add_le_add_right h2 _
    | clean now h ih =>
        obtain ⟨h1, h2⟩ := ih
        rename_i st'
        constructor
        · show ((st'.requests_this_minute.filter (fun t => now - t < 60) : List ℤ) : Multiset ℤ)
            ≤ ((st'.requests_this_hour.filter (fun t => now - t < 3600) : List ℤ) : Multiset ℤ)
          rw [← Multiset.filter_coe, ← Multiset.filter_coe]
          calc Multiset.filter (fun t => now - t < 60) (st'.requests_this_minute : Multiset ℤ)
              ≤ Multiset.filter (fun t => now - t < 3600) (st'.requests_this_minute : Multiset ℤ) :=
                Multiset.monotone_filter_right _ (fun t ht => by omega)
            _ ≤ Multiset.filter (fun t => now - t < 3600) (st'.requests_this_hour : Multiset ℤ) :=
                Multiset.filter_le_filter _ h1
        · show ((st'.requests_this_hour.filter (fun t => now - t < 3600) : List ℤ) : Multiset ℤ)
            ≤ ((st'.requests_this_day.filter (fun t => now - t < 86400) : List ℤ) : Multiset ℤ)
          rw [← Multiset.filter_coe, ← Multiset.filter_coe]
          calc Multiset.filter (fun t => now - t < 3600) (st'.requests_this_hour : Multiset ℤ)
              ≤ Multiset.filter (fun t => now - t < 86400) (st'.requests_this_hour : Multiset ℤ) :=
                Multiset.monotone_filter_right _ (fun t ht => by omega)
            _ ≤ Multiset.filter (fun t => now - t < 86400) (st'.requests_this_day : Multiset ℤ) :=
                Multiset.filter_le_filter _ h2
  obtain ⟨h1, h2⟩ := main
  refine ⟨h1, h2, ?_, ?_⟩
  · have := Multiset.card_le_card h1
    simpa using this
  · have := Multiset.card_le_card h2
    simpa using this

/-- Witness for `C10_window_containment`: two hits at times 0 and 50, then
pruning at time 100 (the minute window drops the first hit). -/
theorem C10_window_containment_witness :
    let st := cleanStats (recordHit (recordHit emptyStats 0) 50) 100
    ((st.requests_this_minute : Multiset ℤ) ≤ (st.requests_this_hour : Multiset ℤ))
      ∧ ((st.requests_this_hour : Multiset ℤ) ≤ (st.requests_this_day : Multiset ℤ))
      ∧ st.requests_this_minute.length ≤ st.requests_this_hour.length
      ∧ st.requests_this_hour.length ≤ st.requests_this_day.length :=
  C10_window_containment (cleanStats (recordHit (recordHit emptyStats 0) 50) 100)
    (StatsReach.clean 100 (StatsReach.record 50 (StatsReach.record 0 StatsReach.init)))

/-! Claim C9: status snapshots are canonical under pruning-only variation. -/

theorem pruneOnly_clean (m : APIKeyManager) (k : String) (now : ℤ) :
    PruneOnly m (_clean_old_usage_data m k now) now := by
  refine ⟨clean_api_keys m k now, clean_fc m k now, clean_lu m k now, ?_, ?_⟩
  · intro j
    rw [dlookup_clean_usage]
    by_cases hj : j = k
    · rw [if_pos hj]
      exact Or.inr rfl
    · rw [if_neg hj]
      exact Or.inl rfl
  · intro j
    rw [clean_disabled]
    exact Or.inl rfl

theorem iska_fc (m : APIKeyManager) (cfg : KeyConfig) (now : ℤ) :
    (_is_key_available m cfg now).2.failure_counts = m.failure_counts := by
  rw [iska_state]
  rcases dlookup m.disabled_keys cfg.api_key with _ | d
  · rw [clean_fc]
  · dsimp only
    by_cases hlt : now < d
    · rw [if_pos hlt]
    · rw [if_neg hlt, clean_fc]

theorem iska_lu (m : APIKeyManager) (cfg : KeyConfig) (now : ℤ) :
    (_is_key_available m cfg now).2.last_used = m.last_used := by
  rw [iska_state]
  rcases dlookup m.disabled_keys cfg.api_key with _ | d
  · rw [clean_lu]
  · dsimp only
    by_cases hlt : now < d
    · rw [if_pos hlt]
    · rw [if_neg hlt, clean_lu]

theorem map_clean_idem (o : Option UsageStats) (now : ℤ) :
    (o.map (fun st => cleanStats st now)).map (fun st => cleanStats st now)
      = o.map (fun st => cleanStats st now) := by
  rcases o with _ | st
  · rfl
  · simp [cleanStats_idem]

/-- After processing one key congig, the usage entry at that key is the pruned
version of the base state's entry, for any pruning-only successor `x` of `m`. -/
theorem statusOne_usage_canonical (m x : APIKeyManager) (cfg : KeyConfig) (now : ℤ)
    (h : PruneOnly m x now) :
    dlookup (statusOne x cfg now).2.usage_stats cfg.api_key
      = (dlookup m.usage_stats cfg.api_key).map (fun st => cleanStats st now) := by
  obtain ⟨_, _, _, hu, _⟩ := h
  have hy : dlookup (_clean_old_usage_data x cfg.api_key now).usage_stats cfg.api_key
      = (dlookup m.usage_stats cfg.api_key).map (fun st => cleanStats st now) := by
    rw [dlookup_clean_usage, if_pos rfl]
    rcases hu cfg.api_key with h' | h'
    · rw [h']
    · rw [h', map_clean_idem]
  show dlookup (_is_key_available (_clean_old_usage_data x cfg.api_key now) cfg now).2.usage_stats
      cfg.api_key = _
  rw [iska_state]
  rcases hd : dlookup (_clean_old_usage_data x cfg.api_key now).disabled_keys cfg.api_key
    with _ | d
  · rw [dlookup_clean_usage, if_pos rfl, hy, map_clean_idem]
  · dsimp only
    by_cases hlt : now < d
    · rw [if_pos hlt]
      exact hy
    · rw [if_neg hlt, dlookup_clean_usage, if_pos rfl]
      show ((dlookup (_clean_old_usage_data x cfg.api_key now).usage_stats cfg.api_key).map
        (fun st => cleanStats st now)) = _
      rw [hy, map_clean_idem]

/-- After processing one key config, the cooldown entry at that key is the
original entry when still in the future and absent otherwise. -/
theorem statusOne_disabled_canonical (m x : APIKeyManager) (cfg : KeyConfig) (now : ℤ)
    (hwfx : wfDict x.disabled_keys) (h : PruneOnly m x now) :
    dlookup (statusOne x cfg now).2.disabled_keys cfg.api_key
      = (match dlookup m.disabled_keys cfg.api_key with
         | some d => if now < d then some d else none
         | none => none) := by
  obtain ⟨_, _, _, _, hd⟩ := h
  have hxd : dlookup (statusOne x cfg now).2.disabled_keys cfg.api_key
      = (match dlookup x.disabled_keys cfg.api_key with
         | some d => if now < d then some d else none
         | none => none) := by
    show dlookup (_is_key_available (_clean_old_usage_data x cfg.api_key now) cfg now).2.disabled_keys
        cfg.api_key = _
    rw [iska_state, clean_disabled]
    rcases hdx : dlookup x.disabled_keys cfg.api_key with _ | d
    · rw [clean_disabled, clean_disabled, hdx]
    · dsimp only
      by_cases hlt : now < d
      · rw [if_pos hlt, if_pos hlt, clean_disabled, hdx]
      · rw [if_neg hlt, if_neg hlt, clean_disabled]
        dsimp only
        exact dlookup_derase_self cfg.api_key hwfx
  rw [hxd]
  rcases hd cfg.api_key with h' | h'
  · rw [h']
  · obtain ⟨hn, d, hdd, hdle⟩ := h'
    rw [hn, hdd]
    dsimp only
    rw [if_neg (by omega)]

theorem iska_api (m : APIKeyManager) (cfg : KeyConfig) (now : ℤ) :
    (_is_key_available m cfg now).2.api_keys = m.api_keys := by
  rw [iska_state]
  rcases dlookup m.disabled_keys cfg.api_key with _ | d
  · rw [clean_api_keys]
  · dsimp only
    by_cases hlt : now < d
    · rw [if_pos hlt]
    · rw [if_neg hlt, clean_api_keys]

theorem statusOne_fc (x : APIKeyManager) (cfg : KeyConfig) (now : ℤ) :
    (statusOne x cfg now).2.failure_counts = x.failure_counts := by
  show (_is_key_available (_clean_old_usage_data x cfg.api_key now) cfg now).2.failure_counts = _
  rw [iska_fc, clean_fc]

theorem statusOne_lu (x : APIKeyManager) (cfg : KeyConfig) (now : ℤ) :
    (statusOne x cfg now).2.last_used = x.last_used := by
  show (_is_key_available (_clean_old_usage_data x cfg.api_key now) cfg now).2.last_used = _
  rw [iska_lu, clean_lu]

theorem pruneOnly_statusOne (x : APIKeyManager) (cfg : KeyConfig) (now : ℤ)
    (hwfx : wfDict x.disabled_keys) :
    PruneOnly x (statusOne x cfg now).2 now := by
  show PruneOnly x (_is_key_available (_clean_old_usage_data x cfg.api_key now) cfg now).2 now
  refine pruneOnly_trans (pruneOnly_clean x cfg.api_key now)
    (pruneOnly_iska (_clean_old_usage_data x cfg.api_key now) cfg now ?_)
  rw [clean_disabled]
  exact hwfx

theorem wf_disabled_statusOne (x : APIKeyManager) (cfg : KeyConfig) (now : ℤ)
    (hwfx : wfDict x.disabled_keys) :
    wfDict (statusOne x cfg now).2.disabled_keys := by
  show wfDict (_is_key_available (_clean_old_usage_data x cfg.api_key now) cfg now).2.disabled_keys
  refine wf_disabled_iska _ cfg now ?_
  rw [clean_disabled]
  exact hwfx

/-- The snapshot of `statusOne` as explicit reads of the post-state. -/
theorem statusOne_fst (x : APIKeyManager) (cfg : KeyConfig) (now : ℤ) :
    (statusOne x cfg now).1
      = { name := cfg.name, enabled := cfg.enabled, priority := cfg.priority,
          is_available :=
            (_is_key_available (_clean_old_usage_data x cfg.api_key now) cfg now).1,
          requests_this_minute :=
            ((dlookup (statusOne x cfg now).2.usage_stats cfg.api_key).getD
              emptyStats).requests_this_minute.length,
          requests_this_hour :=
            ((dlookup (statusOne x cfg now).2.usage_stats cfg.api_key).getD
              emptyStats).requests_this_hour.length,
          requests_this_day :=
            ((dlookup (statusOne x cfg now).2.usage_stats cfg.api_key).getD
              emptyStats).requests_this_day.length,
          total_requests :=
            ((dlookup (statusOne x cfg now).2.usage_stats cfg.api_key).getD
              emptyStats).total_requests,
          failure_count :=
            (dlookup (statusOne x cfg now).2.failure_counts cfg.api_key).getD 0,
          is_disabled :=
            (dlookup (statusOne x cfg now).2.disabled_keys cfg.api_key).isSome,
          disabled_until :=
            (dlookup (statusOne x cfg now).2.disabled_keys cfg.api_key).getD 0,
          last_used :=
            (dlookup (statusOne x cfg now).2.last_used cfg.api_key).getD (some 0) } :=
  rfl

/-- Core invariance: the snapshot of one key is the same whether computed on
`m` or on any pruning-only successor of `m` (the first `status` call only does
lazy pruning, so a second call reads the very same values). -/
theorem statusOne_snap_canonical (m x : APIKeyManager) (cfg : KeyConfig) (now : ℤ)
    (hwfm : wfDict m.disabled_keys) (hwfx : wfDict x.disabled_keys)
    (h : PruneOnly m x now) :
    (statusOne x cfg now).1 = (statusOne m cfg now).1 := by
  have hfcs : x.failure_counts = m.failure_counts := h.2.1
  have hlus : x.last_used = m.last_used := h.2.2.1
  rw [statusOne_fst x cfg now, statusOne_fst m cfg now]
  simp only [KeyStatus.mk.injEq]
  refine ⟨trivial, trivial, trivial, ?_, ?_, ?_, ?_, ?_, ?_, ?_, ?_, ?_⟩
  · rw [iska_bool_eq_spec, iska_bool_eq_spec,
      specAvail_pruneOnly m _ cfg now (pruneOnly_trans h (pruneOnly_clean x cfg.api_key now)),
      specAvail_pruneOnly m _ cfg now (pruneOnly_clean m cfg.api_key now)]
  · rw [statusOne_usage_canonical m x cfg now h,
      statusOne_usage_canonical m m cfg now (pruneOnly_refl m now)]
  · rw [statusOne_usage_canonical m x cfg now h,
      statusOne_usage_canonical m m cfg now (pruneOnly_refl m now)]
  · rw [statusOne_usage_canonical m x cfg now h,
      statusOne_usage_canonical m m cfg now (pruneOnly_refl m now)]
  · rw [statusOne_usage_canonical m x cfg now h,
      statusOne_usage_canonical m m cfg now (pruneOnly_refl m now)]
  · rw [statusOne_fc, statusOne_fc, hfcs]
  · rw [statusOne_disabled_canonical m x cfg now hwfx h,
      statusOne_disabled_canonical m m cfg now hwfm (pruneOnly_refl m now)]
  · rw [statusOne_disabled_canonical m x cfg now hwfx h,
      statusOne_disabled_canonical m m cfg now hwfm (pruneOnly_refl m now)]
  · rw [statusOne_lu, statusOne_lu, hlus]

theorem statusPass_canonical (now : ℤ) :
    ∀ (cfgs : List KeyConfig) (m x : APIKeyManager),
      wfDict m.disabled_keys → wfDict x.disabled_keys → PruneOnly m x now →
      (statusPass cfgs x now).1 = cfgs.map (fun c => (statusOne m c now).1)
        ∧ PruneOnly m (statusPass cfgs x now).2 now
        ∧ wfDict (statusPass cfgs x now).2.disabled_keys := by
  intro cfgs
  induction cfgs with
  | nil =>
      intro m x hwfm hwfx h
      exact ⟨rfl, h, hwfx⟩
  | cons c rest ih =>
      intro m x hwfm hwfx h
      have hsnap := statusOne_snap_canonical m x c now hwfm hwfx h
      have hstep : PruneOnly m (statusOne x c now).2 now :=
        pruneOnly_trans h (pruneOnly_statusOne x c now hwfx)
      have hwf' : wfDict (statusOne x c now).2.disabled_keys :=
        wf_disabled_statusOne x c now hwfx
      obtain ⟨htail, hpo, hwf''⟩ := ih m (statusOne x c now).2 hwfm hwf' hstep
      refine ⟨?_, hpo, hwf''⟩
      show (statusOne x c now).1 :: (statusPass rest (statusOne x c now).2 now).1 = _
      rw [hsnap, htail, List.map_cons]

/-- Claim C9: at a fixed observation time, a second `get_keys_status` call with
no mutation in between returns the identical snapshot list, and the state
change of a call is confined to lazy pruning — `api_keys`, `failure_counts`
and `last_used` are untouched, usage entries are at most filtered by their
horizons, and cooldown entries are at most cleared when expired. -/
theorem C9_status_idempotent (m : APIKeyManager) (now : ℤ)
    (hwf : wfDict m.disabled_keys) :
    (get_keys_status (get_keys_status m now).2 now).1 = (get_keys_status m now).1
      ∧ PruneOnly m (get_keys_status m now).2 now := by
  obtain ⟨h1, hpo, hwf1⟩ := statusPass_canonical now m.api_keys m m hwf hwf
    (pruneOnly_refl m now)
  have hkeys : (get_keys_status m now).2.api_keys = m.api_keys := hpo.1
  obtain ⟨h2, _, _⟩ := statusPass_canonical now m.api_keys m (get_keys_status m now).2
    hwf hwf1 hpo
  constructor
  · show (statusPass (get_keys_status m now).2.api_keys (get_keys_status m now).2 now).1
      = (get_keys_status m now).1
    rw [hkeys]
    show (statusPass m.api_keys (get_keys_status m now).2 now).1 = (statusPass m.api_keys m now).1
    rw [h2]
    exact h1.symm
  · exact hpo

/-- Witness for `C9_status_idempotent`: the quota-exhausted one-key pool
observed at time 30. -/
theorem C9_status_idempotent_witness :
    (get_keys_status (get_keys_status mgrQuotaA 30).2 30).1 = (get_keys_status mgrQuotaA 30).1
      ∧ PruneOnly mgrQuotaA (get_keys_status mgrQuotaA 30).2 30 :=
  C9_status_idempotent mgrQuotaA 30 (by decide)
